import Mathlib

/-!
Verification of the PII redaction engine (`backend/pii_detector.py`).

This file gives a shallow embedding of the engine's core logic, translated
function by function from the Python source, and proves or refutes the
specification's claims about it.

Modelling conventions:
* Python strings are modelled as `List Char`; slicing `s[a:b]` on in-range
  indices is `pySlice`.
* Python integers are `Int` (span offsets coming from JSON may be negative,
  e.g. the `-1` sentinel used by `discover_pii`).
* Python dicts that carry detection entries are modelled by structures with
  exactly the fields the engine reads (`type`, `value`, `start`, `end`;
  `end` is spelled `stop` because `end` is a Lean keyword).  The
  `redaction_label` added by `redact_text` and the originating dict key are
  carried alongside in `LDet`.
* The settings dict is modelled at its access points: `settings.get(k, d)`
  for the boolean `redact_*` keys, `redaction_style` and `custom_label`.
* Python's `list.sort` is a stable sort; a stable sort's output is uniquely
  determined by the comparison key, so it is modelled by the stable
  insertion sort `insSort` below (ties keep their original relative order,
  exactly as in CPython's Timsort).
* External collaborators (the regex engine, spaCy, the Gemini oracle, the
  JSON parser) are parameters at exactly the boundary where the source
  calls them; all the surrounding repository logic is embedded.
-/

/-- Python strings as lists of characters. -/
abbrev Str := List Char

/-- Coerce a Lean string literal to the `List Char` model. -/
def s2l (s : String) : Str := s.toList

/-- Test that `needle` occurs at the head of `hay` (prefix test used by the substring
search helpers). -/
def leadsWith : Str → Str → Bool
  | [], _ => true
  | _ :: _, [] => false
  | a :: as, b :: bs => a == b && leadsWith as bs

/-- Python's `needle in hay` substring test. -/
def containsSub (needle : Str) : Str → Bool
  | [] => leadsWith needle []
  | c :: t => leadsWith needle (c :: t) || containsSub needle t

/-- Python's `hay.find(needle)`: index of the first occurrence, `-1` if none. -/
def pyFind (hay needle : Str) : Int :=
  go 0 hay
where
  go (i : Nat) : Str → Int
    | [] => if leadsWith needle [] then (i : Int) else -1
    | c :: t => if leadsWith needle (c :: t) then (i : Int) else go (i + 1) t

/-- Python's `s.lower()` (ASCII case folding suffices for the engine's data). -/
def lowerStr (s : Str) : Str := s.map Char.toLower

/-- Python's `s.strip()`: trim whitespace from both ends. -/
def pyStrip (s : Str) : Str :=
  ((s.dropWhile Char.isWhitespace).reverse.dropWhile Char.isWhitespace).reverse

/-- Python's `s[a:b]` for `0 ≤ a` and `0 ≤ b` (out-of-range indices clamp,
as in Python). -/
def pySlice (t : Str) (a b : Nat) : Str := (t.drop a).take (b - a)

/-- Python's `s.rstrip('s')`: drop trailing `'s'` characters. -/
def rstripS (s : Str) : Str := (s.reverse.dropWhile (· == 's')).reverse

/-- Python's `" ".join(xs)`. -/
def joinSpace : List Str → Str
  | [] => []
  | [x] => x
  | x :: y :: t => x ++ ' ' :: joinSpace (y :: t)

/-- Decimal rendering of a natural number, as Python's f-string does. -/
def natLabel (n : Nat) : Str := (Nat.repr n).toList

/-- Stable insertion of `x` into a sorted list: `x` goes before the first
element it compares `le` to, hence after every earlier-inserted equal
element. -/
def insertS (le : α → α → Bool) (x : α) : List α → List α
  | [] => [x]
  | y :: ys => if le x y then x :: y :: ys else y :: insertS le x ys

/-- Stable sort (models Python's stable `list.sort`). -/
def insSort (le : α → α → Bool) : List α → List α
  | [] => []
  | x :: xs => insertS le x (insSort le xs)

/-- The settings dict, modelled at the keys the engine reads.  `flags k`
is `settings.get(k)` for the boolean `redact_*` keys (`none` = key absent). -/
structure Settings where
  flags : Str → Option Bool
  redaction_style : Option Str
  custom_label : Option Str

/-- Read `settings.get(key, True)` for the boolean category gates. -/
def flagD (s : Settings) (key : Str) : Bool := (s.flags key).getD true

/-- A detection dict as produced by the detectors: `{"type", "value",
"start", "end"}` (the fields the engine's control flow reads). -/
structure Det where
  type : Str
  value : Str
  start : Int
  stop : Int
deriving DecidableEq

/-- An entry of `all_detections` in `redact_text`: the detection dict plus
the `redaction_label` added there.  `key` records the detections-map key the
entry was built from (implicit in the source's iteration variable
`pii_type`). -/
structure LDet where
  key : Str
  type : Str
  value : Str
  start : Int
  stop : Int
  redaction_label : Str
deriving DecidableEq

/-- The lookup `type_labels.get(pii_type, "REDACTED")` from `get_redaction_label`
(source lines 678-686). -/
def type_labels (pii_type : Str) : Str :=
  if pii_type = s2l "email" then s2l "EMAIL"
  else if pii_type = s2l "phone" then s2l "PHONE"
  else if pii_type = s2l "name" then s2l "NAME"
  else if pii_type = s2l "address" then s2l "ADDRESS"
  else if pii_type = s2l "ssn" then s2l "SSN"
  else if pii_type = s2l "credit_card" then s2l "CARD"
  else s2l "REDACTED"

/-- Source `PIIDetector.get_redaction_label` (lines 669-687). -/
def get_redaction_label (pii_type : Str) (index : Nat) (s : Settings) : Str :=
  let style := s.redaction_style.getD (s2l "labels")
  if style = s2l "black_boxes" then List.replicate 8 '█'
  else if style = s2l "custom" then s.custom_label.getD (s2l "[REDACTED]")
  else s2l "[" ++ type_labels pii_type ++ s2l "_" ++ natLabel (index + 1) ++ s2l "]"

/-- Association-list lookup (Python dict read). -/
def lookupA (m : List (Str × α)) (k : Str) : Option α :=
  match m with
  | [] => none
  | (k', v) :: t => if k' = k then some v else lookupA t k

/-- Association-list write preserving insertion order (Python dict write). -/
def setA (m : List (Str × α)) (k : Str) (v : α) : List (Str × α) :=
  match m with
  | [] => [(k, v)]
  | (k', v') :: t => if k' = k then (k, v) :: t else (k', v') :: setA t k v

/-- The labelling loop of `redact_text` over one map entry's item list
(source lines 694-702): `cnt` is the running `type_counts[pii_type]`, and
an enabled item receives `get_redaction_label(pii_type, counts_after - 1)`. -/
def labelItems (s : Settings) (k : Str) : Nat → List Det → List LDet × Nat
  | cnt, [] => ([], cnt)
  | cnt, it :: its =>
    if flagD s (s2l "redact_" ++ k) then
      let lbl := get_redaction_label k cnt s
      let (tl, c') := labelItems s k (cnt + 1) its
      (⟨k, it.type, it.value, it.start, it.stop, lbl⟩ :: tl, c')
    else labelItems s k cnt its

/-- The outer labelling loop of `redact_text` over the detections map
(source lines 691-702), threading the `type_counts` defaultdict. -/
def labelGo (s : Settings) (counts : List (Str × Nat)) :
    List (Str × List Det) → List LDet
  | [] => []
  | (k, items) :: rest =>
    let c0 := (lookupA counts k).getD 0
    let (out, c1) := labelItems s k c0 items
    out ++ labelGo s (setA counts k c1) rest

/-- The list `all_detections` in `redact_text`: every enabled detection with its
assigned `redaction_label`. -/
def labelStage (dets : List (Str × List Det)) (s : Settings) : List LDet :=
  labelGo s [] dets

/-- The Python overlap test `not (det["end"] <= kept["start"] or
det["start"] >= kept["end"])` (source line 715). -/
def overlapB (det kept : LDet) : Bool :=
  !(decide (det.stop ≤ kept.start) || decide (det.start ≥ kept.stop))

/-- Two spans are character-disjoint (the negation of `overlapB`, as a
proposition). -/
def disjP (a b : LDet) : Prop := a.stop ≤ b.start ∨ b.stop ≤ a.start

instance (a b : LDet) : Decidable (disjP a b) := by
  unfold disjP
  exact inferInstance

/-- The sort key comparison of `all_detections.sort(key=lambda x:
(-(x["end"] - x["start"]), x["start"]))`: Python tuples compare
lexicographically. -/
def sizeLe (a b : LDet) : Bool :=
  decide (-(a.stop - a.start) < -(b.stop - b.start)) ||
    (decide (-(a.stop - a.start) = -(b.stop - b.start)) && decide (a.start ≤ b.start))

/-- The comparison of `filtered_detections.sort(key=lambda x: x["start"],
reverse=True)`. -/
def descLe (a b : LDet) : Bool := decide (b.start ≤ a.start)

/-- The overlap-removal sweep of `redact_text` (source lines 711-719):
keep a span only if it overlaps nothing already kept. -/
def sweepGo (acc : List LDet) : List LDet → List LDet
  | [] => acc
  | d :: ds =>
    if acc.any (fun kept => overlapB d kept) then sweepGo acc ds
    else sweepGo (acc ++ [d]) ds

/-- The list `filtered_detections` before the final position sort. -/
def sweep (l : List LDet) : List LDet := sweepGo [] l

/-- The cross-category overlap resolver: size-descending sort then sweep
(source lines 707-719). -/
def resolve (l : List LDet) : List LDet := sweep (insSort sizeLe l)

/-- The final rewrite plan, sorted by `start` descending
(source lines 721-723). -/
def planDesc (dets : List (Str × List Det)) (s : Settings) : List LDet :=
  insSort descLe (resolve (labelStage dets s))

/-- The guard of the rewrite loop (source lines 730-735): offsets in range
in the original text, and the original text at the span equals, or
contains, the stored value. -/
def appliedB (text : Str) (d : LDet) : Bool :=
  decide (0 ≤ d.start) && decide (d.start < d.stop) &&
    decide (d.stop ≤ (text.length : Int)) &&
    (let orig := pySlice text d.start.toNat d.stop.toNat
     decide (orig = d.value) || containsSub d.value orig)

/-- The splice `redacted_text[:start] + label + redacted_text[end:]`
(source line 736). -/
def splice (cur : Str) (a b : Nat) (lbl : Str) : Str :=
  cur.take a ++ lbl ++ cur.drop b

/-- One iteration of the rewrite loop (source lines 727-736). -/
def fullStep (text cur : Str) (d : LDet) : Str :=
  if appliedB text d then splice cur d.start.toNat d.stop.toNat d.redaction_label
  else cur

/-- The splice of one applied span, in the argument order used when folding
from the right over the ascending plan. -/
def spliceD (d : LDet) (acc : Str) : Str :=
  acc.take d.start.toNat ++ d.redaction_label ++ acc.drop d.stop.toNat

/-- Source `PIIDetector.redact_text` (lines 689-738). -/
def redact_text (text : Str) (dets : List (Str × List Det)) (s : Settings) : Str :=
  if labelStage dets s = [] then text
  else List.foldl (fullStep text) text (planDesc dets s)

/-- The spans the rewriter actually applies, in ascending position order. -/
def appliedAsc (text : Str) (dets : List (Str × List Det)) (s : Settings) : List LDet :=
  ((planDesc dets s).reverse).filter (appliedB text)

/-- The specification-side reading of the rewriter: the result is the
original text with each applied span `[start, end)` replaced by its label,
everything else verbatim.  `pos` is the cursor into the original text. -/
def renderSegs (t : Str) : Nat → List LDet → Str
  | pos, [] => t.drop pos
  | pos, d :: rest =>
    (t.drop pos).take (d.start.toNat - pos) ++ d.redaction_label ++
      renderSegs t d.stop.toNat rest

/-! ### The name producer and the fragment merger (`detect_names`) -/

/-- A spaCy entity as consumed by `detect_names`: `ent.label_`, `ent.text`,
`ent.start_char`, `ent.end_char`. -/
structure NEnt where
  label : Str
  text : Str
  start_char : Int
  end_char : Int
deriving DecidableEq

/-- The absorption step of the name merger (source lines 468-473):
concatenate the values with one space and extend the end offset. -/
def absorb (current nxt : Det) : Det :=
  ⟨s2l "name", current.value ++ ' ' :: nxt.value, current.start, nxt.stop⟩

/-- The merge loop of `detect_names` (source lines 460-478): the running
accumulator absorbs the following span while the gap to it is at most 5
characters; on the first larger gap the accumulator is emitted and the scan
restarts at the non-absorbed span. -/
def mergeGo (current : Det) : List Det → List Det
  | [] => [current]
  | nxt :: rest =>
    if nxt.start - current.stop ≤ 5 then mergeGo (absorb current nxt) rest
    else current :: mergeGo nxt rest

/-- The list `merged_names` of `detect_names` (source lines 456-478), on the
position-sorted span list. -/
def mergeNames : List Det → List Det
  | [] => []
  | d :: rest => mergeGo d rest

/-- The spaCy-entity scan of `detect_names` (source lines 432-454): keep
PERSON entities whose trimmed text has length at least 2, deduplicating
exact `(start_char, end_char)` pairs; the stored value is the trimmed text. -/
def entScan (seen : List (Int × Int)) : List NEnt → List Det
  | [] => []
  | e :: es =>
    if e.label = s2l "PERSON" then
      if (pyStrip e.text).length < 2 then entScan seen es
      else if (e.start_char, e.end_char) ∈ seen then entScan seen es
      else ⟨s2l "name", pyStrip e.text, e.start_char, e.end_char⟩ ::
        entScan ((e.start_char, e.end_char) :: seen) es
    else entScan seen es

/-- The comparison of `sorted(names, key=lambda x: x["start"])`. -/
def startLeD (a b : Det) : Bool := decide (a.start ≤ b.start)

/-- Source `PIIDetector.detect_names` (lines 424-480).  `nlp_loaded` models
`nlp is not None`; `ents` is the entity list the spaCy model yields on the
input text. -/
def detect_names (nlp_loaded : Bool) (ents : List NEnt) (s : Settings) : List Det :=
  if !(flagD s (s2l "redact_names")) || !nlp_loaded then []
  else mergeNames (insSort startLeD (entScan [] ents))

/-! ### The other producers -/

/-- A regex match at its boundary: `match.group()`, `match.start()`,
`match.end()`. -/
structure RMatch where
  mval : Str
  mstart : Int
  mstop : Int
deriving DecidableEq

/-- A username match: group-1 text and offsets plus full-match offsets
(`match.group(1)`, `match.start(1)`, `match.end(1)`, `match.start()`,
`match.end()`). -/
structure UMatch where
  uval : Str
  g1start : Int
  g1stop : Int
  m0start : Int
  m0stop : Int
deriving DecidableEq

/-- Slice `text[max(0, a) : min(len(text), b)]` used for context windows. -/
def ctxSlice (text : Str) (a b : Int) : Str :=
  pySlice text (max 0 a).toNat (min (text.length : Int) b).toNat

/-- Source `PIIDetector.detect_emails` (lines 311-327); `ms` is the
email pattern's `finditer` output (`ms`). -/
def detect_emails (ms : List RMatch) (s : Settings) : List Det :=
  if !(flagD s (s2l "redact_emails")) then []
  else ms.map (fun m => ⟨s2l "email", m.mval, m.mstart, m.mstop⟩)

/-- Inner loop of `detect_phones` over one pattern's matches (source lines
338-353): positions already seen are skipped (and recorded before the
digit-count check, as in the source); a kept candidate needs at least 10
digits after stripping non-digits. -/
def phoneScanM (seen : List (Int × Int)) : List RMatch → List Det × List (Int × Int)
  | [] => ([], seen)
  | m :: rest =>
    if (m.mstart, m.mstop) ∈ seen then phoneScanM seen rest
    else
      let seen1 := (m.mstart, m.mstop) :: seen
      if 10 ≤ (m.mval.filter Char.isDigit).length then
        let (out, seen2) := phoneScanM seen1 rest
        (⟨s2l "phone", m.mval, m.mstart, m.mstop⟩ :: out, seen2)
      else phoneScanM seen1 rest

/-- Outer loop of `detect_phones` over the pattern list (source line 337). -/
def phoneScanP (seen : List (Int × Int)) : List (List RMatch) → List Det
  | [] => []
  | ms :: pats =>
    let (out, seen1) := phoneScanM seen ms
    out ++ phoneScanP seen1 pats

/-- Source `PIIDetector.detect_phones` (lines 329-355); `patterns` is the
per-pattern `finditer` output. -/
def detect_phones (patterns : List (List RMatch)) (s : Settings) : List Det :=
  if !(flagD s (s2l "redact_phones")) then []
  else phoneScanP [] patterns

/-- Source `PIIDetector.detect_ssn` (lines 357-374). -/
def detect_ssn (ms : List RMatch) (s : Settings) : List Det :=
  if !(flagD s (s2l "redact_ssn")) then []
  else ms.map (fun m => ⟨s2l "ssn", m.mval, m.mstart, m.mstop⟩)

/-- Source `PIIDetector.detect_credit_cards` (lines 376-396): kept only with
exactly 16 digits after stripping separators. -/
def detect_credit_cards (ms : List RMatch) (s : Settings) : List Det :=
  if !(flagD s (s2l "redact_credit_cards")) then []
  else (ms.filter (fun m => (m.mval.filter Char.isDigit).length == 16)).map
    (fun m => ⟨s2l "credit_card", m.mval, m.mstart, m.mstop⟩)

/-- Inner loop of `detect_addresses` over one pattern's matches (source
lines 407-420): duplicate positions suppressed, no further filtering. -/
def addrScanM (seen : List (Int × Int)) : List RMatch → List Det × List (Int × Int)
  | [] => ([], seen)
  | m :: rest =>
    if (m.mstart, m.mstop) ∈ seen then addrScanM seen rest
    else
      let (out, seen1) := addrScanM ((m.mstart, m.mstop) :: seen) rest
      (⟨s2l "address", m.mval, m.mstart, m.mstop⟩ :: out, seen1)

/-- Outer loop of `detect_addresses` over the pattern list (source line 406). -/
def addrScanP (seen : List (Int × Int)) : List (List RMatch) → List Det
  | [] => []
  | ms :: pats =>
    let (out, seen1) := addrScanM seen ms
    out ++ addrScanP seen1 pats

/-- Source `PIIDetector.detect_addresses` (lines 398-422). -/
def detect_addresses (patterns : List (List RMatch)) (s : Settings) : List Det :=
  if !(flagD s (s2l "redact_addresses")) then []
  else addrScanP [] patterns

/-- Loop body of `detect_usernames` (source lines 494-513): dedup on the
group-1 offsets; a candidate with an `'@'` within 10 characters of the full
match is treated as part of an email and skipped. -/
def userScan (text : Str) (seen : List (Int × Int)) : List UMatch → List Det
  | [] => []
  | m :: rest =>
    if (m.g1start, m.g1stop) ∈ seen then userScan text seen rest
    else
      let seen1 := (m.g1start, m.g1stop) :: seen
      let email_context := ctxSlice text (m.m0start - 10) (m.m0stop + 10)
      if email_context.contains '@' then userScan text seen1 rest
      else ⟨s2l "name", m.uval, m.g1start, m.g1stop⟩ :: userScan text seen1 rest

/-- Source `PIIDetector.detect_usernames` (lines 482-515), gated by
`redact_names`. -/
def detect_usernames (ms : List UMatch) (text : Str) (s : Settings) : List Det :=
  if !(flagD s (s2l "redact_names")) then []
  else userScan text [] ms

/-! ### The oracle adapter (`GeminiValidator`) at its response boundary -/

/-- A parsed validation response: the optional `is_pii` and `reasoning`
fields of the JSON object. -/
structure VRes where
  is_pii : Option Bool
  reasoning : Option Str

/-- Python's `s.split(sep)` for a nonempty separator, with a fuel bound
(`fuel ≥ length s` at every call site, so the fuel never runs out). -/
def pySplitF (sep : Str) : Nat → Str → List Str
  | 0, hay => [hay]
  | fuel + 1, hay =>
    match hay with
    | [] => [[]]
    | c :: t =>
      if leadsWith sep hay then [] :: pySplitF sep fuel (hay.drop sep.length)
      else
        match pySplitF sep fuel t with
        | [] => [[c]]
        | h :: r => (c :: h) :: r

/-- The code-fence extraction applied to an oracle response before JSON
parsing (source lines 105-108):
`result_text.split("<fence>json")[1].split("<fence>")[0].strip()`. -/
def extractJsonBlock (rt : Str) : Str :=
  if containsSub (s2l "```json") rt then
    let part := (pySplitF (s2l "```json") (rt.length + 1) rt).getD 1 []
    pyStrip ((pySplitF (s2l "```") (part.length + 1) part).getD 0 [])
  else if containsSub (s2l "```") rt then
    let part := (pySplitF (s2l "```") (rt.length + 1) rt).getD 1 []
    pyStrip ((pySplitF (s2l "```") (part.length + 1) part).getD 0 [])
  else rt

/-- Source `GeminiValidator.validate_pii` response handling (lines 101-117).
`parse` stands for the external `json.loads` (`none` models
`JSONDecodeError`); `responseText` is `response.text`.  On a parse failure
Python falls back to scanning the (fence-stripped) text for `"false"` or
`"not pii"`. -/
def validate_pii (parse : Str → Option VRes) (responseText : Str) : Bool × Str :=
  let rt := extractJsonBlock (pyStrip responseText)
  match parse rt with
  | some r => (r.is_pii.getD true, r.reasoning.getD (s2l "No reasoning provided"))
  | none =>
    if containsSub (s2l "false") (lowerStr rt) ||
        containsSub (s2l "not pii") (lowerStr rt) then (false, rt)
    else (true, rt)

/-- A discovered-candidate dict as parsed from the oracle's `discover`
response (the fields `detect_all`'s merge step reads; absent keys are
`none`). -/
structure RawDisc where
  rtype : Option Str
  rvalue : Option Str
  rstart : Option Int
  rstop : Option Int
deriving DecidableEq

/-- The offset-validation loop of `GeminiValidator.discover_pii` (source
lines 183-206): a `-1` (or missing) offset triggers a literal search of the
value in the document; candidates not found are dropped. -/
def discoverScan (text : Str) : List RawDisc → List Det
  | [] => []
  | det :: rest =>
    let value := det.rvalue.getD []
    let start := det.rstart.getD (-1)
    let stop := det.rstop.getD (-1)
    if start = -1 ∨ stop = -1 then
      let pos := pyFind text value
      if pos = -1 then discoverScan text rest
      else ⟨det.rtype.getD (s2l "other"), value, pos, pos + (value.length : Int)⟩ ::
        discoverScan text rest
    else ⟨det.rtype.getD (s2l "other"), value, start, stop⟩ :: discoverScan text rest

/-- Source `GeminiValidator.discover_pii` on an already parsed response list
(parsing and the prompt are external). -/
def discover_pii (text : Str) (raw : List RawDisc) : List Det := discoverScan text raw

/-! ### `detect_all` -/

/-- The username-into-names combination step of `detect_all` (source lines
522-533): the duplicate check uses the frozen original name positions, the
overlap check the live, growing list. -/
def combineNames (names usernames : List Det) : List Det :=
  let name_positions := names.map (fun n => (n.start, n.stop))
  usernames.foldl (fun ns u =>
    if (u.start, u.stop) ∈ name_positions then ns
    else if ns.any (fun n =>
        !(decide (u.stop ≤ n.start) || decide (u.start ≥ n.stop))) then ns
    else ns ++ [u]) names

/-- The 100-character context window around a candidate (source lines
577-579, 593-595, 612-614). -/
def ctx100 (text : Str) (d : Det) : Str := ctxSlice text (d.start - 100) (d.stop + 100)

/-- The validation loop for a non-name category (source lines 610-621):
keep exactly the candidates the oracle validates. -/
def validateSimple (validate : Str → Str → Str → Str → Bool × Str)
    (text : Str) (k : Str) : List Det → List Det
  | [] => []
  | item :: rest =>
    let r := validate text item.value k (ctx100 text item)
    if r.1 then item :: validateSimple validate text k rest
    else validateSimple validate text k rest

/-- Closeness test of the name grouping and the neighbor rule (source lines
559 and 606). -/
def closeB (item gi : Det) : Bool :=
  decide ((item.start - gi.stop).natAbs ≤ 5) || decide ((item.stop - gi.start).natAbs ≤ 5)

/-- One step of the name-group construction (source lines 555-567): the
item joins the first group containing a member within 5 characters,
otherwise starts a new group at the end. -/
def addToGroups : List (List Det) → Det → List (List Det)
  | [], item => [[item]]
  | g :: gs, item =>
    if g.any (fun gi => closeB item gi) then (g ++ [item]) :: gs
    else g :: addToGroups gs item

/-- The join `" ".join(sorted([n["value"] for n in group], key=lambda x:
group[0]["start"]))` (source line 573): the key is constant, and CPython's
sort is stable, so the values are joined in group order. -/
def joinGroupValue (g : List Det) : Str := joinSpace (g.map (·.value))

/-- The minimum `min(n["start"] for n in group)` (source line 574). -/
def minStarts : List Det → Int
  | [] => 0
  | d :: t => t.foldl (fun a x => min a x.start) d.start

/-- The maximum `max(n["end"] for n in group)` (source line 575). -/
def maxStops : List Det → Int
  | [] => 0
  | d :: t => t.foldl (fun a x => max a x.stop) d.stop

/-- The per-group validation loop for names (source lines 569-609): a
multi-fragment group is kept whether or not the oracle validates it (both
branches of `if is_valid` append, differing only in the reasoning tag); a
rejected single fragment is kept when within 5 characters of an
already-kept span (the neighbor rule), otherwise dropped. -/
def vngGo (validate : Str → Str → Str → Str → Bool × Str) (text : Str)
    (acc : List Det) : List (List Det) → List Det
  | [] => acc
  | g :: gs =>
    if 1 < g.length then
      let merged : Det := ⟨s2l "name", joinGroupValue g, minStarts g, maxStops g⟩
      let r := validate text merged.value (s2l "names") (ctx100 text merged)
      if r.1 then vngGo validate text (acc ++ [merged]) gs
      else vngGo validate text (acc ++ [merged]) gs
    else
      match g with
      | [] => vngGo validate text acc gs
      | item :: _ =>
        let r := validate text item.value (s2l "names") (ctx100 text item)
        if r.1 then vngGo validate text (acc ++ [item]) gs
        else if acc.any (fun v => closeB item v) then
          vngGo validate text (acc ++ [item]) gs
        else vngGo validate text acc gs

/-- The validation step of `detect_all` for one category (source lines
546-623). -/
def validateAll (validate : Str → Str → Str → Str → Bool × Str)
    (text : Str) (k : Str) (items : List Det) : List Det :=
  if k = s2l "names" then
    vngGo validate text [] ((insSort startLeD items).foldl addToGroups [])
  else validateSimple validate text k items

/-- The lookup `type_mapping.get(det_type, "names")` (source lines 631-640). -/
def type_mapping (t : Str) : Str :=
  if t = s2l "email" then s2l "emails"
  else if t = s2l "phone" then s2l "phones"
  else if t = s2l "name" then s2l "names"
  else if t = s2l "address" then s2l "addresses"
  else if t = s2l "ssn" then s2l "ssn"
  else if t = s2l "credit_card" then s2l "credit_cards"
  else if t = s2l "username" then s2l "names"
  else s2l "names"

/-- The merge of one discovered candidate into the results map (source
lines 629-662): exact-`(start, end)` duplicates within the mapped category
are dropped; the stored `type` is the mapped key with trailing `'s'`
stripped.  Note: no `redact_*` gate is consulted here. -/
def addDiscovered (vr : List (Str × List Det)) (nd : Det) : List (Str × List Det) :=
  let mapped := type_mapping nd.type
  let vr1 := if lookupA vr mapped = none then vr ++ [(mapped, [])] else vr
  let existing := (lookupA vr1 mapped).getD []
  if existing.any (fun e => decide (e.start = nd.start) && decide (e.stop = nd.stop)) then
    vr1
  else setA vr1 mapped (existing ++ [⟨rstripS mapped, nd.value, nd.start, nd.stop⟩])

/-- Source `PIIDetector.detect_all` (lines 517-667).  External collaborators
appear as parameters: `ents` (spaCy), the `*Matches`/`*Patterns` lists (the
regex engine on the input text), `validate` (the oracle's per-candidate
validation responses), `discRaw` (the parsed discovery response) and
`explanation` (the oracle's summary). -/
def detect_all (text : Str) (s : Settings) (nlp_loaded : Bool) (ents : List NEnt)
    (uMatches : List UMatch) (eMatches : List RMatch)
    (phPatterns adPatterns : List (List RMatch))
    (ssnMatches ccMatches : List RMatch)
    (validate : Str → Str → Str → Str → Bool × Str)
    (discRaw : List RawDisc) (explanation : Str) :
    List (Str × List Det) × Str :=
  let names := detect_names nlp_loaded ents s
  let usernames := detect_usernames uMatches text s
  let names1 := combineNames names usernames
  let results : List (Str × List Det) :=
    [(s2l "emails", detect_emails eMatches s),
     (s2l "phones", detect_phones phPatterns s),
     (s2l "names", names1),
     (s2l "addresses", detect_addresses adPatterns s),
     (s2l "ssn", detect_ssn ssnMatches s),
     (s2l "credit_cards", detect_credit_cards ccMatches s)]
  let validated_results := results.map (fun kv => (kv.1, validateAll validate text kv.1 kv.2))
  let final := (discover_pii text discRaw).foldl addDiscovered validated_results
  (final, explanation)

/-! ### Concrete instances used by witnesses and counterexamples -/

/-- An empty settings dict (every key falls back to its default). -/
def defaultSettings : Settings := ⟨fun _ => none, none, none⟩

/-- C3 failing input: two phone detections listed in the order
(span at 50, span at 10). -/
def textC3 : Str := s2l "Call now: 555-333-4444 then dial our second lines 555-111-2222 ok"

/-- C3 failing input, detections map. -/
def detsC3 : List (Str × List Det) :=
  [(s2l "phones",
    [⟨s2l "phone", s2l "555-111-2222", 50, 62⟩,
     ⟨s2l "phone", s2l "555-333-4444", 10, 22⟩])]

/-- C5 counterexample: a long span covering both others. -/
def cZ5 : LDet := ⟨s2l "addresses", s2l "address", s2l "aaaaaaaaaaaaaaaaaaaa", 0, 20, s2l "[REDACTED_1]"⟩

/-- C5 counterexample: the longer of the two overlapping candidates. -/
def cX5 : LDet := ⟨s2l "phones", s2l "phone", s2l "bbbbbbbbbb", 0, 10, s2l "[REDACTED_1]"⟩

/-- C5 counterexample: the shorter of the two overlapping candidates. -/
def cY5 : LDet := ⟨s2l "ssn", s2l "ssn", s2l "cccc", 8, 12, s2l "[SSN_1]"⟩

/-- C5 witness pair, longer span. -/
def cA5 : LDet := ⟨s2l "emails", s2l "email", s2l "dddddddd", 3, 11, s2l "[REDACTED_1]"⟩

/-- C5 witness pair, shorter overlapping span. -/
def cB5 : LDet := ⟨s2l "names", s2l "name", s2l "eee", 9, 12, s2l "[REDACTED_1]"⟩

/-- C6 witness: document text. -/
def textC6 : Str := s2l "hello world"

/-- C6 witness: one stale detection whose stored value does not occur at
its offsets. -/
def detsC6 : List (Str × List Det) :=
  [(s2l "emails", [⟨s2l "email", s2l "xyz", 0, 3⟩])]

/-- C6 witness: the labeled plan entry for `detsC6`. -/
def d6 : LDet := ⟨s2l "emails", s2l "email", s2l "xyz", 0, 3, s2l "[REDACTED_1]"⟩

/-- C9 counterexample: custom style selected, no custom label key. -/
def s9 : Settings := ⟨fun _ => none, some (s2l "custom"), none⟩

/-- C9 counterexample: document text. -/
def text9 : Str := s2l "id: 1234567"

/-- C9 counterexample: detections map. -/
def dets9 : List (Str × List Det) :=
  [(s2l "emails", [⟨s2l "email", s2l "1234", 4, 8⟩])]

/-- C9 counterexample: an email regex match, to show the producer still
runs under the invalid configuration. -/
def eMatch9 : RMatch := ⟨s2l "a@b.io", 0, 6⟩

/-- C4 settings: the email category is disabled. -/
def s4 : Settings :=
  ⟨fun key => if key = s2l "redact_emails" then some false else none, none, none⟩

/-- C4 counterexample: document text. -/
def text4 : Str := s2l "mail bob@x.com now"

/-- C4 counterexample: the oracle's discover step proposes an email span. -/
def discRaw4 : List RawDisc :=
  [⟨some (s2l "email"), some (s2l "bob@x.com"), some 5, some 14⟩]

/-- C4 counterexample: an oracle that validates everything. -/
def validate4 : Str → Str → Str → Str → Bool × Str := fun _ _ _ _ => (true, [])

/-- C4 counterexample: the full `detect_all` output. -/
def detsOut4 : List (Str × List Det) :=
  (detect_all text4 s4 true [] [] [] [] [] [] [] validate4 discRaw4 []).1

/-- C8: the spaCy PERSON fragments of the specification's merge example. -/
def ents8 : List NEnt :=
  [⟨s2l "PERSON", s2l "Emily", 8, 13⟩, ⟨s2l "PERSON", s2l "Johnson", 14, 21⟩]

/-- C8 witness: the first name fragment. -/
def cE8 : Det := ⟨s2l "name", s2l "Emily", 8, 13⟩

/-- C8 witness: the second name fragment, at gap 1. -/
def cJ8 : Det := ⟨s2l "name", s2l "Johnson", 14, 21⟩

-- sanity checks of the embedding on concrete data
example : containsSub (s2l "xy") (s2l "axyb") = true := by decide
example : containsSub (s2l "xz") (s2l "axyb") = false := by decide
example : pyFind (s2l "hello") (s2l "llo") = 2 := by decide
example : pyFind (s2l "hello") (s2l "z") = -1 := by decide
example : pySlice (s2l "hello world") 0 3 = s2l "hel" := by decide
example : rstripS (s2l "addresses") = s2l "addresse" := by decide
example : rstripS (s2l "ssn") = s2l "ssn" := by decide
example : natLabel 12 = s2l "12" := by decide
example : get_redaction_label (s2l "phones") 0 ⟨fun _ => none, none, none⟩ = s2l "[REDACTED_1]" := by decide
example : get_redaction_label (s2l "ssn") 1 ⟨fun _ => none, none, none⟩ = s2l "[SSN_2]" := by decide
example :
    redact_text (s2l "mail bob@x.io now")
      [(s2l "emails", [⟨s2l "email", s2l "bob@x.io", 5, 13⟩])]
      ⟨fun _ => none, none, none⟩ = s2l "mail [REDACTED_1] now" := by decide


/-! ### Properties of the stable sort and the sweep -/

theorem insertS_perm (le : α → α → Bool) (x : α) (l : List α) :
    List.Perm (insertS le x l) (x :: l) := by
  induction l with
  | nil => simp [insertS]
  | cons y ys ih =>
    simp only [insertS]
    split
    · exact List.Perm.refl _
    · exact (List.Perm.cons y ih).trans (List.Perm.swap x y ys)

theorem insSort_perm (le : α → α → Bool) (l : List α) :
    List.Perm (insSort le l) l := by
  induction l with
  | nil => simp [insSort]
  | cons x xs ih => exact (insertS_perm le x (insSort le xs)).trans (ih.cons x)

theorem insertS_pairwise (le : α → α → Bool)
    (htot : ∀ a b, le a b = false → le b a = true)
    (htrans : ∀ a b c, le a b = true → le b c = true → le a c = true)
    (x : α) (l : List α) (hl : l.Pairwise (fun a b => le a b = true)) :
    (insertS le x l).Pairwise (fun a b => le a b = true) := by
  induction l with
  | nil => simp [insertS]
  | cons y ys ih =>
    simp only [insertS]
    rcases List.pairwise_cons.mp hl with ⟨hy, hys⟩
    by_cases h : le x y = true
    · simp only [h, if_true]
      refine List.pairwise_cons.mpr ⟨?_, hl⟩
      intro b hb
      rcases List.mem_cons.mp hb with hb | hb
      · exact hb ▸ h
      · exact htrans x y b h (hy _ hb)
    · simp only [h, if_false]
      refine List.pairwise_cons.mpr ⟨?_, ih hys⟩
      intro b hb
      rcases List.mem_cons.mp ((insertS_perm le x ys).mem_iff.mp hb) with hb' | hb'
      · rw [hb']
        exact htot x y (by simpa using h)
      · exact hy _ hb'

theorem insSort_pairwise (le : α → α → Bool)
    (htot : ∀ a b, le a b = false → le b a = true)
    (htrans : ∀ a b c, le a b = true → le b c = true → le a c = true)
    (l : List α) :
    (insSort le l).Pairwise (fun a b => le a b = true) := by
  induction l with
  | nil => simp [insSort]
  | cons x xs ih => exact insertS_pairwise le htot htrans x _ ih

theorem descLe_total : ∀ a b, descLe a b = false → descLe b a = true := by
  intro a b
  simp only [descLe, decide_eq_false_iff_not, decide_eq_true_eq, not_le]
  omega

theorem descLe_trans : ∀ a b c, descLe a b = true → descLe b c = true →
    descLe a c = true := by
  intro a b c
  simp only [descLe, decide_eq_true_eq]
  omega

theorem sizeLe_total : ∀ a b, sizeLe a b = false → sizeLe b a = true := by
  intro a b
  simp only [sizeLe, Bool.or_eq_false_iff, Bool.or_eq_true,
    Bool.and_eq_false_iff, Bool.and_eq_true, decide_eq_false_iff_not,
    decide_eq_true_eq, not_lt]
  omega

theorem sizeLe_trans : ∀ a b c, sizeLe a b = true → sizeLe b c = true →
    sizeLe a c = true := by
  intro a b c
  simp only [sizeLe, Bool.or_eq_true, Bool.and_eq_true, decide_eq_true_eq]
  omega

theorem disjP_symm : ∀ {a b : LDet}, disjP a b → disjP b a := by
  intro a b h
  rcases h with h | h
  · exact Or.inr h
  · exact Or.inl h

theorem overlapB_false_iff (d k : LDet) :
    overlapB d k = false ↔ disjP d k := by
  simp only [overlapB, disjP, Bool.not_eq_false', Bool.or_eq_true,
    decide_eq_true_eq, ge_iff_le]

theorem sweepGo_pairwise (l : List LDet) :
    ∀ acc, acc.Pairwise disjP → (sweepGo acc l).Pairwise disjP := by
  induction l with
  | nil => intro acc h; simpa [sweepGo] using h
  | cons d ds ih =>
    intro acc hacc
    by_cases hany : (acc.any (fun kept => overlapB d kept)) = true
    · simpa only [sweepGo, hany, if_true] using ih acc hacc
    · simp only [sweepGo, hany, if_false]
      refine ih (acc ++ [d]) ?_
      rw [List.pairwise_append]
      refine ⟨hacc, List.pairwise_singleton _ _, ?_⟩
      intro a ha b hb
      simp only [List.mem_singleton] at hb
      rw [hb]
      have hfalse : overlapB d a = false := by
        by_contra hcontra
        exact hany (List.any_eq_true.mpr ⟨a, ha, by simpa using hcontra⟩)
      exact disjP_symm ((overlapB_false_iff d a).mp hfalse)

theorem sweepGo_mem (l : List LDet) :
    ∀ acc x, x ∈ sweepGo acc l → x ∈ acc ∨ x ∈ l := by
  induction l with
  | nil => intro acc x h; exact Or.inl (by simpa [sweepGo] using h)
  | cons d ds ih =>
    intro acc x h
    by_cases hany : (acc.any (fun kept => overlapB d kept)) = true
    · simp only [sweepGo, hany, if_true] at h
      rcases ih acc x h with h' | h'
      · exact Or.inl h'
      · exact Or.inr (List.mem_cons_of_mem d h')
    · simp only [sweepGo, hany, if_false] at h
      rcases ih (acc ++ [d]) x h with h' | h'
      · rcases List.mem_append.mp h' with h'' | h''
        · exact Or.inl h''
        · simp only [List.mem_singleton] at h''
          exact Or.inr (h'' ▸ List.mem_cons_self d ds)
      · exact Or.inr (List.mem_cons_of_mem d h')

theorem sweep_pairwise (l : List LDet) : (sweep l).Pairwise disjP :=
  sweepGo_pairwise l [] List.Pairwise.nil

theorem sweep_mem (l : List LDet) (x : LDet) (h : x ∈ sweep l) : x ∈ l := by
  rcases sweepGo_mem l [] x h with h' | h'
  · cases h'
  · exact h'

theorem resolve_pairwise (l : List LDet) : (resolve l).Pairwise disjP :=
  sweep_pairwise _

theorem resolve_mem (l : List LDet) (x : LDet) (h : x ∈ resolve l) : x ∈ l :=
  (insSort_perm sizeLe l).mem_iff.mp (sweep_mem _ x h)

theorem planDesc_pairwise_disj (dets : List (Str × List Det)) (s : Settings) :
    (planDesc dets s).Pairwise disjP :=
  ((insSort_perm descLe _).pairwise_iff (fun h => disjP_symm h)).mpr
    (resolve_pairwise _)

theorem planDesc_pairwise_desc (dets : List (Str × List Det)) (s : Settings) :
    (planDesc dets s).Pairwise (fun a b => b.start ≤ a.start) := by
  have h := insSort_pairwise descLe descLe_total descLe_trans
    (resolve (labelStage dets s))
  exact h.imp (by intro a b hab; simpa [descLe] using hab)

theorem planDesc_mem (dets : List (Str × List Det)) (s : Settings) (x : LDet)
    (h : x ∈ planDesc dets s) : x ∈ labelStage dets s :=
  resolve_mem _ x ((insSort_perm descLe _).mem_iff.mp h)

/-! ### Properties of the rewrite loop -/

theorem appliedB_props (text : Str) (d : LDet) (h : appliedB text d = true) :
    0 ≤ d.start ∧ d.start < d.stop ∧ d.stop ≤ (text.length : Int) := by
  simp only [appliedB, Bool.and_eq_true, decide_eq_true_eq] at h
  exact ⟨h.1.1.1, h.1.1.2, h.1.2⟩

theorem fullStep_eq (text cur : Str) (d : LDet) :
    fullStep text cur d = if appliedB text d then spliceD d cur else cur := rfl

theorem foldl_fullStep_eq_foldr (text cur : Str) (l : List LDet) :
    List.foldl (fullStep text) cur l =
    List.foldr (fun d acc => fullStep text acc d) cur l.reverse := by
  rw [List.foldr_reverse]

theorem foldr_fullStep_filter (text : Str) (cur : Str) (l : List LDet) :
    List.foldr (fun d acc => fullStep text acc d) cur l =
    List.foldr spliceD cur (l.filter (appliedB text)) := by
  induction l with
  | nil => rfl
  | cons d ds ih =>
    by_cases h : appliedB text d = true
    · rw [List.foldr_cons, ih, fullStep_eq, if_pos h, List.filter_cons, if_pos h,
        List.foldr_cons]
    · rw [List.foldr_cons, ih, fullStep_eq, if_neg h, List.filter_cons, if_neg h]

theorem appliedAsc_filter_eq (text : Str) (dets : List (Str × List Det))
    (s : Settings) :
    appliedAsc text dets s = (planDesc dets s).reverse.filter (appliedB text) := rfl

theorem appliedAsc_applied (text : Str) (dets : List (Str × List Det))
    (s : Settings) (x : LDet) (hx : x ∈ appliedAsc text dets s) :
    appliedB text x = true :=
  (List.mem_filter.mp hx).2

theorem appliedAsc_pairwise_disj (text : Str) (dets : List (Str × List Det))
    (s : Settings) : (appliedAsc text dets s).Pairwise disjP := by
  have h1 : (planDesc dets s).reverse.Pairwise disjP := by
    rw [List.pairwise_reverse]
    exact (planDesc_pairwise_disj dets s).imp (fun h => disjP_symm h)
  exact h1.filter _

theorem appliedAsc_pairwise_startle (text : Str) (dets : List (Str × List Det))
    (s : Settings) :
    (appliedAsc text dets s).Pairwise (fun a b => a.start ≤ b.start) := by
  have h1 : (planDesc dets s).reverse.Pairwise (fun a b => a.start ≤ b.start) := by
    rw [List.pairwise_reverse]
    exact (planDesc_pairwise_desc dets s).imp (fun h => h)
  exact h1.filter _

theorem appliedAsc_chain_int (text : Str) (dets : List (Str × List Det))
    (s : Settings) :
    (appliedAsc text dets s).Pairwise (fun a b => a.stop ≤ b.start) := by
  have hd := appliedAsc_pairwise_disj text dets s
  have hs := appliedAsc_pairwise_startle text dets s
  refine (hd.and hs).imp_of_mem ?_
  intro a b ha hb hab
  have hbb := appliedB_props text b (appliedAsc_applied text dets s b hb)
  rcases hab.1 with h | h
  · exact h
  · exfalso
    have := hab.2
    omega

theorem appliedAsc_chain_nat (text : Str) (dets : List (Str × List Det))
    (s : Settings) :
    (appliedAsc text dets s).Pairwise (fun a b => a.stop.toNat ≤ b.start.toNat) :=
  (appliedAsc_chain_int text dets s).imp (fun h => by omega)

theorem appliedAsc_bounds (text : Str) (dets : List (Str × List Det))
    (s : Settings) (d : LDet) (hd : d ∈ appliedAsc text dets s) :
    d.start.toNat < d.stop.toNat ∧ d.stop.toNat ≤ text.length := by
  have h := appliedB_props text d (appliedAsc_applied text dets s d hd)
  omega

theorem foldr_splice_renderSegs (t : Str) :
    ∀ (asc : List LDet) (pos : Nat),
      asc.Pairwise (fun a b => a.stop.toNat ≤ b.start.toNat) →
      (∀ d ∈ asc, d.start.toNat < d.stop.toNat ∧ d.stop.toNat ≤ t.length) →
      (∀ d ∈ asc, pos ≤ d.start.toNat) →
      (List.foldr spliceD t asc).take pos = t.take pos ∧
      (List.foldr spliceD t asc).drop pos = renderSegs t pos asc := by
  intro asc
  induction asc with
  | nil => intro pos _ _ _; exact ⟨rfl, rfl⟩
  | cons d rest ih =>
    intro pos hpw hbnd hpos
    obtain ⟨hd_rest, hpw'⟩ := List.pairwise_cons.mp hpw
    have hdb := hbnd d (List.mem_cons_self d rest)
    have hbnd' : ∀ x ∈ rest, x.start.toNat < x.stop.toNat ∧ x.stop.toNat ≤ t.length :=
      fun x hx => hbnd x (List.mem_cons_of_mem d hx)
    have ihE := ih d.stop.toNat hpw' hbnd' hd_rest
    have hs_le_e : d.start.toNat ≤ d.stop.toNat := le_of_lt hdb.1
    have hs_le_len : d.start.toNat ≤ t.length := le_trans hs_le_e hdb.2
    have htakeS : (List.foldr spliceD t rest).take d.start.toNat =
        t.take d.start.toNat := by
      have h1 : (List.foldr spliceD t rest).take d.start.toNat =
          ((List.foldr spliceD t rest).take d.stop.toNat).take d.start.toNat := by
        rw [List.take_take, min_eq_left hs_le_e]
      rw [h1, ihE.1, List.take_take, min_eq_left hs_le_e]
    have hlenTS : (t.take d.start.toNat).length = d.start.toNat := by
      rw [List.length_take, min_eq_left hs_le_len]
    have hpos_d : pos ≤ d.start.toNat := hpos d (List.mem_cons_self d rest)
    have hfold : List.foldr spliceD t (d :: rest) =
        t.take d.start.toNat ++ d.redaction_label ++
          renderSegs t d.stop.toNat rest := by
      show spliceD d (List.foldr spliceD t rest) = _
      rw [spliceD, htakeS, ihE.2]
    constructor
    · rw [hfold, List.append_assoc]
      rw [List.take_append_of_le_length (by rw [hlenTS]; exact hpos_d)]
      rw [List.take_take, min_eq_left hpos_d]
    · rw [hfold, List.append_assoc]
      rw [List.drop_append_of_le_length (by rw [hlenTS]; exact hpos_d)]
      rw [List.drop_take]
      simp [renderSegs, List.append_assoc]

theorem planDesc_nil_of_labelStage_nil (dets : List (Str × List Det))
    (s : Settings) (h : labelStage dets s = []) : planDesc dets s = [] := by
  rw [planDesc, resolve, h]
  rfl

theorem takeStable (text : Str) :
    ∀ (l : List LDet) (cur : Str) (p : Nat),
      p ≤ cur.length → cur.take p = text.take p →
      (∀ x ∈ l, appliedB text x = true → p ≤ x.start.toNat) →
      (List.foldl (fullStep text) cur l).take p = text.take p ∧
      p ≤ (List.foldl (fullStep text) cur l).length := by
  intro l
  induction l with
  | nil => intro cur p h1 h2 _; exact ⟨h2, h1⟩
  | cons x xs ih =>
    intro cur p h1 h2 hst
    rw [List.foldl_cons]
    by_cases hx : appliedB text x = true
    · have hps : p ≤ x.start.toNat := hst x (List.mem_cons_self x xs) hx
      have hlen1 : p ≤ (cur.take x.start.toNat).length := by
        rw [List.length_take]
        exact le_min hps h1
      have hstep_take : (fullStep text cur x).take p = text.take p := by
        rw [fullStep_eq, if_pos hx, spliceD, List.append_assoc]
        rw [List.take_append_of_le_length hlen1]
        rw [List.take_take, min_eq_left hps, h2]
      have hstep_len : p ≤ (fullStep text cur x).length := by
        rw [fullStep_eq, if_pos hx, spliceD]
        simp only [List.length_append, List.length_take]
        omega
      exact ih (fullStep text cur x) p hstep_len hstep_take
        (fun y hy hay => hst y (List.mem_cons_of_mem x hy) hay)
    · rw [fullStep_eq, if_neg hx]
      exact ih cur p h1 h2 (fun y hy hay => hst y (List.mem_cons_of_mem x hy) hay)

theorem slice_of_take_eq (w t : Str) (a b : Nat) (h : w.take b = t.take b) :
    pySlice w a b = pySlice t a b := by
  have h1 : pySlice w a b = (w.take b).drop a := by
    rw [pySlice, List.drop_take]
  have h2 : pySlice t a b = (t.take b).drop a := by
    rw [pySlice, List.drop_take]
  rw [h1, h2, h]

/-! ### Claims C2, C3, C5, C7, C8, C9, C10 -/

/-- C2: for every input text, settings and detections map, the spans
surviving overlap filtering in `redact_text` — and in particular the spans
the rewriter applies — are pairwise character-disjoint: for any two of them
`a.end <= b.start` or `b.end <= a.start`. -/
theorem c2_applied_plan_no_overlap :
    ∀ (text : Str) (dets : List (Str × List Det)) (s : Settings),
      (resolve (labelStage dets s)).Pairwise disjP ∧
      (appliedAsc text dets s).Pairwise disjP := by
  intro text dets s
  refine ⟨resolve_pairwise _, ?_⟩
  have h1 : (planDesc dets s).reverse.Pairwise disjP := by
    rw [List.pairwise_reverse]
    exact (planDesc_pairwise_disj dets s).imp (fun h => disjP_symm h)
  exact h1.filter _

/-- C3 (claim refuted; evaluation at the failing input): with the default
(indexed) style, `redact_text` labels two phone detections at positions 50
and 10, listed in that order, as `[REDACTED_1]` (at 50) and `[REDACTED_2]`
(at 10) — not `[PHONE_1]`/`[PHONE_2]`, and not in ascending position order:
`get_redaction_label` is called with the plural map key `"phones"`, which
misses the singular-keyed display-name table, and with the per-key counter
taken in detection order before overlap resolution. -/
theorem c3_labels_at_failing_input :
    labelStage detsC3 defaultSettings =
      [⟨s2l "phones", s2l "phone", s2l "555-111-2222", 50, 62, s2l "[REDACTED_1]"⟩,
       ⟨s2l "phones", s2l "phone", s2l "555-333-4444", 10, 22, s2l "[REDACTED_2]"⟩] ∧
    redact_text textC3 detsC3 defaultSettings =
      s2l "Call now: [REDACTED_2] then dial our second lines [REDACTED_1] ok" :=
  ⟨by decide, by decide⟩

/-- C5 amended: the resolver keeps a size-descending greedy sweep, so two
overlapping candidates never both survive, and when the candidate pool is
exactly the overlapping pair the longer one appears and the shorter one is
absent.  (As originally stated — the longer of ANY two overlapping
candidates appears in the final plan — the claim is false: a third, still
longer span can evict both; see the counterexample.) -/
theorem c5_size_bias_amended :
    ∀ (l : List LDet) (a b : LDet),
      ¬ disjP a b →
      b.stop - b.start < a.stop - a.start →
      ¬ (a ∈ resolve l ∧ b ∈ resolve l) ∧ resolve [a, b] = [a] := by
  intro l a b hov hlen
  constructor
  · rintro ⟨ha, hb⟩
    have hne : a ≠ b := by intro h; rw [h] at hlen; omega
    have hd : disjP a b :=
      List.Pairwise.forall (fun x y h => disjP_symm h) (resolve_pairwise l) ha hb hne
    exact hov hd
  · have hsize : sizeLe a b = true := by
      simp only [sizeLe, Bool.or_eq_true, Bool.and_eq_true, decide_eq_true_eq]
      omega
    have hover : overlapB b a = true := by
      rcases Bool.eq_false_or_eq_true (overlapB b a) with ht | hf
      · exact ht
      · exact absurd (disjP_symm ((overlapB_false_iff b a).mp hf)) hov
    have h1 : insSort sizeLe [a, b] = [a, b] := by
      simp [insSort, insertS, hsize]
    rw [resolve, h1]
    simp [sweep, sweepGo, hover]

/-- C5 as stated is false on the code: in the pool `[cZ5, cX5, cY5]`,
`cX5` and `cY5` overlap and `cX5` is strictly longer, yet `cX5` is absent
from the resolved plan (it is evicted by the still longer `cZ5`). -/
theorem c5_counterexample_longer_absent :
    cX5 ∈ [cZ5, cX5, cY5] ∧ cY5 ∈ [cZ5, cX5, cY5] ∧ ¬ disjP cX5 cY5 ∧
    cY5.stop - cY5.start < cX5.stop - cX5.start ∧
    cX5 ∉ resolve [cZ5, cX5, cY5] :=
  ⟨by decide, by decide, by decide, by decide, by decide⟩

/-- C5 witness: on the two-element pool `[cA5, cB5]` the longer `cA5` alone
survives. -/
theorem c5_witness : resolve [cA5, cB5] = [cA5] :=
  (c5_size_bias_amended [cA5, cB5] cA5 cB5 (by decide) (by decide)).2

/-- C7 as stated is false on the code: the response `"This is not PII"` is
not parseable as JSON (`json.loads` raises `JSONDecodeError`, modelled by
`parse` returning `none` on it), yet `validate_pii`'s fallback scans it,
finds `"not pii"`, and returns `isPii = false` — the candidate is dropped.
So it is not the case that every unparseable response yields
`isPii = true`.  (A bare `"false"` would NOT witness this: it is valid
JSON, parses to a bool, and the subsequent attribute error escalates to a
raised `RuntimeError` instead of reaching the fallback.) -/
theorem c7_counterexample_false_response :
    ¬ (∀ (parse : Str → Option VRes) (responseText : Str),
        parse (extractJsonBlock (pyStrip responseText)) = none →
        (validate_pii parse responseText).1 = true) := by
  intro h
  have hf := h (fun _ => none) (s2l "This is not PII") rfl
  exact absurd hf (by decide)

/-- C7 amended: on an unparseable validation response the adapter returns
`isPii = true` unless the lowercased (fence-stripped) response text
contains `"false"` or `"not pii"`, in which case it returns
`isPii = false`. -/
theorem c7_failsafe_amended :
    ∀ (parse : Str → Option VRes) (responseText : Str),
      parse (extractJsonBlock (pyStrip responseText)) = none →
      (validate_pii parse responseText).1 =
        !(containsSub (s2l "false")
            (lowerStr (extractJsonBlock (pyStrip responseText))) ||
          containsSub (s2l "not pii")
            (lowerStr (extractJsonBlock (pyStrip responseText)))) := by
  intro parse rt h
  simp only [validate_pii, h]
  by_cases hc : (containsSub (s2l "false") (lowerStr (extractJsonBlock (pyStrip rt))) ||
      containsSub (s2l "not pii") (lowerStr (extractJsonBlock (pyStrip rt)))) = true
  · simp [hc]
  · simp only [Bool.not_eq_true] at hc
    simp [hc]

/-- C7 witness: an unparseable response not containing the override words
is treated as PII. -/
theorem c7_witness :
    (validate_pii (fun _ => none) (s2l "unparseable garbage ok")).1 = true :=
  (c7_failsafe_amended (fun _ => none) (s2l "unparseable garbage ok") rfl).trans
    (by decide)

/-- C8: the name merger, on spans sorted ascending by start offset, absorbs
the next span into the accumulator whenever `next.start - current.end ≤ 5`,
concatenating the values with one space and extending the end offset;
absorption is transitive along a chain of close fragments, and on the
specification's example the fragments `"Emily"[8:13]` and `"Johnson"[14:21]`
merge into the single span `"Emily Johnson"[8:21]`. -/
theorem c8_name_merger :
    (∀ (c nxt : Det) (rest : List Det), nxt.start - c.stop ≤ 5 →
        mergeGo c (nxt :: rest) = mergeGo (absorb c nxt) rest) ∧
    (∀ (d : Det) (rest : List Det),
        List.Chain (fun x y => y.start - x.stop ≤ 5) d rest →
        mergeNames (d :: rest) = [rest.foldl absorb d]) ∧
    detect_names true ents8 defaultSettings =
      [⟨s2l "name", s2l "Emily Johnson", 8, 21⟩] := by
  refine ⟨?_, ?_, by decide⟩
  · intro c nxt rest h
    simp [mergeGo, h]
  · have main : ∀ (rest : List Det) (d : Det),
        List.Chain (fun x y => y.start - x.stop ≤ 5) d rest →
        mergeGo d rest = [rest.foldl absorb d] := by
      intro rest
      induction rest with
      | nil => intro d _; simp [mergeGo]
      | cons nxt tl ih =>
        intro d hch
        rcases hch with _ | ⟨hgap, hch'⟩
        have hch2 : List.Chain (fun x y => y.start - x.stop ≤ 5) (absorb d nxt) tl := by
          cases hch' with
          | nil => exact List.Chain.nil
          | cons hR hrest => exact List.Chain.cons (by simpa [absorb] using hR) hrest
        simp only [mergeGo, if_pos hgap, List.foldl_cons]
        exact ih (absorb d nxt) hch2
    intro d rest hch
    exact main rest d hch

/-- C8 witness: two fragments at gap 1 merge by absorption. -/
theorem c8_witness : mergeNames [cE8, cJ8] = [List.foldl absorb cE8 [cJ8]] :=
  c8_name_merger.2.1 cE8 [cJ8] (List.Chain.cons (by decide) List.Chain.nil)

/-- C9 as stated is false on the code: with style `custom` selected and no
custom label key in the settings, nothing is rejected and no error is
raised — `get_redaction_label` falls back to the default `"[REDACTED]"`,
the producers still run, and a redacted output is produced. -/
theorem c9_counterexample_no_rejection :
    get_redaction_label (s2l "emails") 0 s9 = s2l "[REDACTED]" ∧
    detect_emails [eMatch9] s9 = [⟨s2l "email", s2l "a@b.io", 0, 6⟩] ∧
    redact_text text9 dets9 s9 = s2l "id: [REDACTED]567" :=
  ⟨by decide, by decide, by decide⟩

/-- C9 amended: if the custom label style is selected and no custom label
is supplied, the request is not rejected; `get_redaction_label` silently
falls back to the default label `"[REDACTED]"` for every span and the
pipeline proceeds normally. -/
theorem c9_custom_label_amended :
    ∀ (pt : Str) (index : Nat) (s : Settings),
      s.redaction_style.getD (s2l "labels") = s2l "custom" →
      s.custom_label = none →
      get_redaction_label pt index s = s2l "[REDACTED]" := by
  intro pt index s h1 h2
  have hbb : ¬ s.redaction_style.getD (s2l "labels") = s2l "black_boxes" := by
    rw [h1]; decide
  simp only [get_redaction_label, if_neg hbb, if_pos h1, h2, Option.getD_none]

/-- C9 witness. -/
theorem c9_witness : get_redaction_label (s2l "phones") 3 s9 = s2l "[REDACTED]" :=
  c9_custom_label_amended (s2l "phones") 3 s9 (by decide) rfl

/-- C10: for every category string outside the six recognized singular keys
— in particular the pluralized keys `redact_text` passes — the indexed
(default) style falls back to the display name `REDACTED`, yielding the
label `"[REDACTED_n]"` with `n = index + 1`. -/
theorem c10_unrecognized_category_redacted_label :
    ∀ (pt : Str) (index : Nat) (s : Settings),
      pt ∉ [s2l "email", s2l "phone", s2l "name", s2l "address", s2l "ssn",
        s2l "credit_card"] →
      s.redaction_style.getD (s2l "labels") ≠ s2l "black_boxes" →
      s.redaction_style.getD (s2l "labels") ≠ s2l "custom" →
      get_redaction_label pt index s =
        s2l "[REDACTED_" ++ natLabel (index + 1) ++ s2l "]" := by
  intro pt index s hpt h1 h2
  simp only [List.mem_cons, List.not_mem_nil, or_false, not_or] at hpt
  obtain ⟨n1, n2, n3, n4, n5, n6⟩ := hpt
  simp only [get_redaction_label, if_neg h1, if_neg h2, type_labels,
    if_neg n1, if_neg n2, if_neg n3, if_neg n4, if_neg n5, if_neg n6]
  rfl

/-- C10 witness: the plural key `"phones"` with index 0 yields
`[REDACTED_1]`. -/
theorem c10_witness :
    get_redaction_label (s2l "phones") 0 defaultSettings = s2l "[REDACTED_1]" :=
  (c10_unrecognized_category_redacted_label (s2l "phones") 0 defaultSettings
    (by decide) (by decide) (by decide)).trans (by decide)

/-! ### Claims C1 and C6 -/

/-- C1: for every input text, settings and detections map, `redact_text`
produces its result from the original text solely by replacing each applied
span `[start, end)` with that span's label (`renderSegs` concatenates the
untouched segments of the original text around the labels); in particular
every character outside the applied spans appears unchanged at the
correspondingly shifted position.  The second conjunct records that the
applied spans form a left-to-right chain, so the segment reading is
well-formed. -/
theorem c1_rewrite_is_segment_replacement :
    ∀ (text : Str) (dets : List (Str × List Det)) (s : Settings),
      redact_text text dets s = renderSegs text 0 (appliedAsc text dets s) ∧
      (appliedAsc text dets s).Pairwise (fun a b => a.stop ≤ b.start) := by
  intro text dets s
  refine ⟨?_, appliedAsc_chain_int text dets s⟩
  by_cases hemp : labelStage dets s = []
  · rw [redact_text, if_pos hemp, appliedAsc_filter_eq,
      planDesc_nil_of_labelStage_nil dets s hemp]
    rfl
  · rw [redact_text, if_neg hemp, foldl_fullStep_eq_foldr, foldr_fullStep_filter,
      ← appliedAsc_filter_eq]
    have h := foldr_splice_renderSegs text (appliedAsc text dets s) 0
      (appliedAsc_chain_nat text dets s)
      (fun d hd => appliedAsc_bounds text dets s d hd)
      (fun d _ => Nat.zero_le _)
    exact h.2

/-- C6: during rewriting every span of the plan is re-checked against the
text at its offsets before substitution — and because every span processed
earlier lies entirely at-or-after the current span's end, the slice of the
current working copy at those offsets coincides with the original text
there, so checking the original (as the code does) and checking the working
copy (as the specification says) agree (first conjunct); if the check
fails, the span is silently skipped: no error is raised and the result is
exactly the rewrite of the remaining plan (second conjunct). -/
theorem c6_offset_mismatch_skip :
    ∀ (text : Str) (dets : List (Str × List Det)) (s : Settings)
      (l1 : List LDet) (d : LDet) (l2 : List LDet),
      planDesc dets s = l1 ++ d :: l2 →
      ((0 ≤ d.start ∧ d.start < d.stop ∧ d.stop ≤ (text.length : Int)) →
        pySlice (List.foldl (fullStep text) text l1) d.start.toNat d.stop.toNat =
          pySlice text d.start.toNat d.stop.toNat) ∧
      (appliedB text d = false →
        redact_text text dets s = List.foldl (fullStep text) text (l1 ++ l2)) := by
  intro text dets s l1 d l2 hplan
  have hemp : labelStage dets s ≠ [] := by
    intro h
    have h0 := planDesc_nil_of_labelStage_nil dets s h
    rw [hplan] at h0
    exact List.cons_ne_nil d l2 (List.append_eq_nil.mp h0).2
  constructor
  · intro hb
    have hdisj := planDesc_pairwise_disj dets s
    have hdesc := planDesc_pairwise_desc dets s
    rw [hplan, List.pairwise_append] at hdisj hdesc
    have hst : ∀ x ∈ l1, appliedB text x = true → d.stop.toNat ≤ x.start.toNat := by
      intro x hx hax
      have hxb := appliedB_props text x hax
      have h1 : disjP x d := hdisj.2.2 x hx d (List.mem_cons_self d l2)
      have h2 : d.start ≤ x.start := hdesc.2.2 x hx d (List.mem_cons_self d l2)
      rcases h1 with h1 | h1
      · omega
      · omega
    have hts := takeStable text l1 text d.stop.toNat
      (by omega) rfl hst
    exact slice_of_take_eq _ _ _ _ hts.1
  · intro hfail
    rw [redact_text, if_neg hemp, hplan, List.foldl_append, List.foldl_append,
      List.foldl_cons, fullStep_eq, if_neg (by simp [hfail])]

/-- C6 witness: a stale span (`"xyz"` claimed at `[0,3)` of
`"hello world"`) is skipped and the untouched remainder of the plan (here
empty) is still applied, so the text survives verbatim. -/
theorem c6_witness : redact_text textC6 detsC6 defaultSettings = textC6 :=
  (c6_offset_mismatch_skip textC6 detsC6 defaultSettings [] d6 [] (by decide)).2
    (by decide)

/-! ### Claim C4 -/

theorem labelItems_key (s : Settings) (k : Str) :
    ∀ (items : List Det) (cnt : Nat) (d : LDet),
      d ∈ (labelItems s k cnt items).1 → d.key = k := by
  intro items
  induction items with
  | nil => intro cnt d hd; cases hd
  | cons it its ih =>
    intro cnt d hd
    by_cases hf : flagD s (s2l "redact_" ++ k) = true
    · simp only [labelItems, if_pos hf] at hd
      rcases List.mem_cons.mp hd with h | h
      · rw [h]
      · exact ih (cnt + 1) d h
    · simp only [labelItems, if_neg hf] at hd
      exact ih cnt d hd

theorem labelItems_nil_of_flag_false (s : Settings) (k : Str)
    (hf : flagD s (s2l "redact_" ++ k) = false) :
    ∀ (items : List Det) (cnt : Nat), (labelItems s k cnt items).1 = [] := by
  intro items
  induction items with
  | nil => intro cnt; rfl
  | cons it its ih =>
    intro cnt
    have hcond : ¬ (flagD s (s2l "redact_" ++ k) = true) := by rw [hf]; decide
    simp only [labelItems]
    rw [if_neg hcond]
    exact ih cnt

theorem labelGo_key_ne (s : Settings) (k : Str)
    (hf : flagD s (s2l "redact_" ++ k) = false) :
    ∀ (detsL : List (Str × List Det)) (counts : List (Str × Nat)) (d : LDet),
      d ∈ labelGo s counts detsL → d.key ≠ k := by
  intro detsL
  induction detsL with
  | nil => intro counts d hd; cases hd
  | cons kv rest ih =>
    intro counts d hd
    obtain ⟨k', items⟩ := kv
    simp only [labelGo] at hd
    rcases List.mem_append.mp hd with h | h
    · by_cases hkk : k' = k
      · rw [hkk, labelItems_nil_of_flag_false s k hf] at h
        cases h
      · rw [labelItems_key s k' items _ d h]
        exact hkk
    · exact ih _ d h

theorem appliedAsc_mem (text : Str) (dets : List (Str × List Det))
    (s : Settings) (d : LDet) (hd : d ∈ appliedAsc text dets s) :
    d ∈ labelStage dets s := by
  have h1 : d ∈ (planDesc dets s).reverse := (List.mem_filter.mp hd).1
  exact planDesc_mem dets s d (List.mem_reverse.mp h1)

/-- C4 amended: disabling a category yields zero spans of that category
from its producer and zero spans of that category in the labeled plan (and
hence in the applied redaction plan); however, the output detections map
can still contain oracle-discovered spans of the disabled category, because
`detect_all` merges discoveries without consulting the `redact_*` gates
(see the counterexample). -/
theorem c4_category_gating_amended :
    ∀ (s : Settings) (dets : List (Str × List Det)) (k : Str) (text : Str),
      flagD s (s2l "redact_" ++ k) = false →
      (∀ d ∈ labelStage dets s, d.key ≠ k) ∧
      (∀ d ∈ appliedAsc text dets s, d.key ≠ k) ∧
      (k = s2l "emails" → ∀ ms, detect_emails ms s = []) ∧
      (k = s2l "phones" → ∀ ps, detect_phones ps s = []) ∧
      (k = s2l "names" → (∀ nb es, detect_names nb es s = []) ∧
        (∀ us t2, detect_usernames us t2 s = [])) ∧
      (k = s2l "addresses" → ∀ ps, detect_addresses ps s = []) ∧
      (k = s2l "ssn" → ∀ ms, detect_ssn ms s = []) ∧
      (k = s2l "credit_cards" → ∀ ms, detect_credit_cards ms s = []) := by
  intro s dets k text hf
  refine ⟨fun d hd => labelGo_key_ne s k hf dets [] d hd,
    fun d hd => labelGo_key_ne s k hf dets [] d (appliedAsc_mem text dets s d hd),
    ?_, ?_, ?_, ?_, ?_, ?_⟩
  · rintro rfl ms
    rw [detect_emails, if_pos (by rw [show s2l "redact_emails" = s2l "redact_" ++ s2l "emails" from rfl, hf]; rfl)]
  · rintro rfl ps
    rw [detect_phones, if_pos (by rw [show s2l "redact_phones" = s2l "redact_" ++ s2l "phones" from rfl, hf]; rfl)]
  · rintro rfl
    constructor
    · intro nb es
      rw [detect_names, if_pos (by rw [show s2l "redact_names" = s2l "redact_" ++ s2l "names" from rfl, hf]; rfl)]
    · intro us t2
      rw [detect_usernames, if_pos (by rw [show s2l "redact_names" = s2l "redact_" ++ s2l "names" from rfl, hf]; rfl)]
  · rintro rfl ps
    rw [detect_addresses, if_pos (by rw [show s2l "redact_addresses" = s2l "redact_" ++ s2l "addresses" from rfl, hf]; rfl)]
  · rintro rfl ms
    rw [detect_ssn, if_pos (by rw [show s2l "redact_ssn" = s2l "redact_" ++ s2l "ssn" from rfl, hf]; rfl)]
  · rintro rfl ms
    rw [detect_credit_cards, if_pos (by rw [show s2l "redact_credit_cards" = s2l "redact_" ++ s2l "credit_cards" from rfl, hf]; rfl)]

/-- C4 as stated is false on the code: with `redact_emails = false` and an
oracle discovery proposing an email span, `detect_all`'s output detections
map contains one email span (the discovery merge consults no gate), so the
map does not have zero spans of the disabled category.  The applied plan is
still empty for that category: `redact_text` leaves the text unchanged. -/
theorem c4_counterexample_discovered_disabled :
    flagD s4 (s2l "redact_emails") = false ∧
    lookupA detsOut4 (s2l "emails") =
      some [⟨s2l "email", s2l "bob@x.com", 5, 14⟩] ∧
    redact_text text4 detsOut4 s4 = text4 :=
  ⟨by decide, by decide, by decide⟩

/-- C4 witness: with emails disabled the email producer yields nothing. -/
theorem c4_witness : detect_emails [eMatch9] s4 = [] :=
  ((c4_category_gating_amended s4 [] (s2l "emails") []) (by decide)).2.2.1 rfl
    [eMatch9]
